import Mathlib

/-!
Shallow embedding of the CH32V203 in-circuit programmer core
(src/src/ch32v203prog.c) and verification of its specification claims.

The hardware interaction is modelled by an explicit event trace:
every transport-level register write / read, every synthesized
memory-bridge access, every status-callback invocation and the entry
into each flash/step operation is recorded as an event.  Values read
from the target are supplied by an oracle `env : Nat → Nat` indexed by
the number of transport reads performed so far (the read value is
truncated to 32 bits at the read site, as `rvswd_read` yields a
`uint32_t`).  The two busy-wait loops of the flash controller are
unbounded in the C source; they are modelled with an explicit fuel
parameter, `none` standing for non-termination.
-/

/-- Observable events of the programmer model.  `wr`/`rd` are the raw
transport accesses (`rvswd_write` / `rvswd_read`), `memWr`/`memRd`
annotate the synthesized memory-bridge accesses (which additionally
emit their underlying transport events), `cb` is the status callback,
`erase`/`pgm` mark entry into the flash block operations, and the `m*`
events mark the steps of the top-level `ch32_program` sequence. -/
inductive Ev : Type where
  | wr (reg val : Nat)
  | rd (reg val : Nat)
  | memWr (addr val : Nat)
  | memRd (addr val : Nat)
  | cb (progress total : Nat)
  | erase (addr : Nat)
  | pgm (addr : Nat)
  | mInit
  | mReset
  | mHalt
  | mUnlock
  | mWriteFlash (addr : Nat)
  | mRun
  deriving DecidableEq, Repr

/-- Modelled from the spec: the external transport's result type
(`rvswd.h` belongs to the out-of-scope transport component and is not
part of this repository); per §6 it has "at least OK/FAIL variants".
The C halt timeout path `return false` is rendered as `RVSWD_FAIL`
following the spec's "on exhaustion, fail with a halt-timeout
error". -/
inductive rvswd_result_t : Type where
  | RVSWD_OK
  | RVSWD_FAIL
  deriving DecidableEq, Repr

/-- Result of a model operation: computed value, number of transport
reads consumed so far afterwards, and the emitted event trace. -/
structure MOut (α : Type) where
  val : α
  t : Nat
  tr : List Ev
  deriving DecidableEq, Repr

def U32 : Nat := 4294967296

def CH32_REG_DEBUG_DATA0 : Nat := 0x04
def CH32_REG_DEBUG_DMCONTROL : Nat := 0x10
def CH32_REG_DEBUG_DMSTATUS : Nat := 0x11
def CH32_REG_DEBUG_COMMAND : Nat := 0x17
def CH32_REG_DEBUG_PROGBUF0 : Nat := 0x20
def CH32_REGS_GPR : Nat := 0x1000
def CH32_FLASH_STATR : Nat := 0x4002200C
def CH32_FLASH_CTLR : Nat := 0x40022010
def CH32_FLASH_ADDR : Nat := 0x40022014
def CH32_FLASH_STATR_BUSY : Nat := 1
def CH32_FLASH_STATR_WRBUSY : Nat := 2
def CH32_FLASH_CTLR_STRT : Nat := 0x40
def CH32_FLASH_CTLR_FTPG : Nat := 0x10000
def CH32_FLASH_CTLR_FTER : Nat := 0x20000
def CH32_FLASH_CTLR_PGSTRT : Nat := 0x200000

/-- The `ch32_readmem` debug snippet (`c.lw a0, 0(a1); ebreak`). -/
def ch32_readmem : List Nat := [0x88, 0x41, 0x02, 0x90]

/-- The `ch32_writemem` debug snippet (`c.sw a0, 0(a1); ebreak`). -/
def ch32_writemem : List Nat := [0x88, 0xc1, 0x02, 0x90]

/-- Little-endian 32-bit word assembled from four consecutive bytes of
a byte buffer (the effect of `memcpy` into a `uint32_t` on the
little-endian target host). -/
def word4 (d : Nat → Nat) (j : Nat) : Nat :=
  d j % 256 + 256 * (d (j + 1) % 256) + 65536 * (d (j + 2) % 256) +
    16777216 * (d (j + 3) % 256)

/-- Word `i` of the zero-initialised 8-word program buffer after
`memcpy`ing the code bytes into it. -/
def progWord (code : List Nat) (i : Nat) : Nat :=
  word4 (fun j => code.getD j 0) (4 * i)

/-- `ch32_write_cpu_reg`: stage the value in DATA0, then issue an
access-register command {write, transfer, 32-bit}. -/
def ch32_write_cpu_reg (regno value t : Nat) : MOut Bool :=
  let command := regno % 65536 ||| (1 <<< 16) ||| (1 <<< 17) ||| (2 <<< 20)
  ⟨true, t, [Ev.wr CH32_REG_DEBUG_DATA0 (value % U32),
             Ev.wr CH32_REG_DEBUG_COMMAND command]⟩

/-- `ch32_read_cpu_reg`: issue an access-register command {read,
transfer, 32-bit}, then read DATA0.  `val` is (read value, C bool
result). -/
def ch32_read_cpu_reg (env : Nat → Nat) (regno t : Nat) : MOut (Nat × Bool) :=
  let command := regno % 65536 ||| (1 <<< 17) ||| (2 <<< 20)
  let value := env t % U32
  ⟨(value, true), t + 1,
    [Ev.wr CH32_REG_DEBUG_COMMAND command, Ev.rd CH32_REG_DEBUG_DATA0 value]⟩

/-- `ch32_run_debug_code`: reject programs longer than 32 bytes or of
odd length; otherwise copy into the zero-initialised 8-word program
buffer, write all eight buffer registers in order and issue a command
{no transfer, run program buffer, 32-bit, access-register}. -/
def ch32_run_debug_code (code : List Nat) (t : Nat) : MOut Bool :=
  if 32 < code.length then ⟨false, t, []⟩
  else if code.length % 2 = 1 then ⟨false, t, []⟩
  else
    ⟨true, t,
      (List.range 8).map
        (fun i => Ev.wr (CH32_REG_DEBUG_PROGBUF0 + i) (progWord code i)) ++
      [Ev.wr CH32_REG_DEBUG_COMMAND ((1 <<< 18) ||| (2 <<< 20))]⟩

/-- `ch32_read_memory_word`: stage the address in GPR a1 (x11), run the
load snippet, fetch the loaded word from GPR a0 (x10). -/
def ch32_read_memory_word (env : Nat → Nat) (address t : Nat) : MOut (Nat × Bool) :=
  let a := address % U32
  let w := ch32_write_cpu_reg (CH32_REGS_GPR + 11) a t
  let r := ch32_run_debug_code ch32_readmem w.t
  let x := ch32_read_cpu_reg env (CH32_REGS_GPR + 10) r.t
  ⟨(x.val.1, true), x.t, w.tr ++ r.tr ++ x.tr ++ [Ev.memRd a x.val.1]⟩

/-- `ch32_write_memory_word`: stage value in GPR a0, address in GPR a1,
run the store snippet. -/
def ch32_write_memory_word (address value t : Nat) : MOut Bool :=
  let a := address % U32
  let v := value % U32
  let w1 := ch32_write_cpu_reg (CH32_REGS_GPR + 10) v t
  let w2 := ch32_write_cpu_reg (CH32_REGS_GPR + 11) a w1.t
  let r := ch32_run_debug_code ch32_writemem w2.t
  ⟨true, r.t, Ev.memWr a v :: (w1.tr ++ w2.tr ++ r.tr)⟩

/-- The shared DMSTATUS polling loop of the three CPU-control
operations: read DMSTATUS; stop successfully when `check` holds of the
value; fail when the retry counter has reached zero; otherwise
decrement and retry (the C sources start the counter at 5, so the
status register is read at most 6 times). -/
def ch32_poll (env : Nat → Nat) (check : Nat → Bool) : Nat → Nat → MOut Bool
  | 0, t =>
    let value := env t % U32
    ⟨check value, t + 1, [Ev.rd CH32_REG_DEBUG_DMSTATUS value]⟩
  | timeout + 1, t =>
    let value := env t % U32
    if check value then ⟨true, t + 1, [Ev.rd CH32_REG_DEBUG_DMSTATUS value]⟩
    else
      let rest := ch32_poll env check timeout (t + 1)
      ⟨rest.val, rest.t, Ev.rd CH32_REG_DEBUG_DMSTATUS value :: rest.tr⟩

/-- `ch32_halt_microprocessor`: enable debug module, request halt, poll
DMSTATUS bits [9:8] for 0b11, then clear the halt request. -/
def ch32_halt_microprocessor (env : Nat → Nat) (t : Nat) : MOut rvswd_result_t :=
  let pre : List Ev := [Ev.wr CH32_REG_DEBUG_DMCONTROL 0x80000001,
                        Ev.wr CH32_REG_DEBUG_DMCONTROL 0x80000001]
  let p := ch32_poll env (fun v => (v >>> 8) &&& 3 == 3) 5 t
  if p.val then
    ⟨rvswd_result_t.RVSWD_OK, p.t,
      pre ++ p.tr ++ [Ev.wr CH32_REG_DEBUG_DMCONTROL 0x00000001]⟩
  else
    ⟨rvswd_result_t.RVSWD_FAIL, p.t, pre ++ p.tr⟩

/-- `ch32_resume_microprocessor`: enable, request halt, clear halt,
request resume, then poll.  NOTE: the C source checks
`(value >> 10) & 0b11` (DMSTATUS bits [11:10]) although its own
comment says to check `rdata[17:16]`. -/
def ch32_resume_microprocessor (env : Nat → Nat) (t : Nat) : MOut rvswd_result_t :=
  let pre : List Ev := [Ev.wr CH32_REG_DEBUG_DMCONTROL 0x80000001,
                        Ev.wr CH32_REG_DEBUG_DMCONTROL 0x80000001,
                        Ev.wr CH32_REG_DEBUG_DMCONTROL 0x00000001,
                        Ev.wr CH32_REG_DEBUG_DMCONTROL 0x40000001]
  let p := ch32_poll env (fun v => (v >>> 10) &&& 3 == 3) 5 t
  ⟨if p.val then rvswd_result_t.RVSWD_OK else rvswd_result_t.RVSWD_FAIL,
    p.t, pre ++ p.tr⟩

/-- `ch32_reset_microprocessor_and_run`: enable, request halt, clear
halt, request core reset, poll DMSTATUS bits [19:18] for 0b11, then
acknowledge the reset status with three further control writes. -/
def ch32_reset_microprocessor_and_run (env : Nat → Nat) (t : Nat) : MOut rvswd_result_t :=
  let pre : List Ev := [Ev.wr CH32_REG_DEBUG_DMCONTROL 0x80000001,
                        Ev.wr CH32_REG_DEBUG_DMCONTROL 0x80000001,
                        Ev.wr CH32_REG_DEBUG_DMCONTROL 0x00000001,
                        Ev.wr CH32_REG_DEBUG_DMCONTROL 0x00000003]
  let p := ch32_poll env (fun v => (v >>> 18) &&& 3 == 3) 5 t
  if p.val then
    ⟨rvswd_result_t.RVSWD_OK, p.t,
      pre ++ p.tr ++ [Ev.wr CH32_REG_DEBUG_DMCONTROL 0x00000001,
                      Ev.wr CH32_REG_DEBUG_DMCONTROL 0x10000001,
                      Ev.wr CH32_REG_DEBUG_DMCONTROL 0x00000001]⟩
  else
    ⟨rvswd_result_t.RVSWD_FAIL, p.t, pre ++ p.tr⟩

/-- The busy-wait loop shared by `ch32_wait_flash` (mask = BUSY) and
`ch32_wait_flash_write` (mask = WRBUSY): while the masked status bit of
the last value is set, read FLASH_STATR again.  The C loop is
unbounded; `fuel` bounds the model, `none` standing for
non-termination. -/
def ch32_wait_loop (env : Nat → Nat) (mask : Nat) : Nat → Nat → Nat → Option (MOut Unit)
  | 0, value, t =>
    if value &&& mask = 0 then some ⟨(), t, []⟩ else none
  | fuel + 1, value, t =>
    if value &&& mask = 0 then some ⟨(), t, []⟩
    else
      let r := ch32_read_memory_word env CH32_FLASH_STATR t
      match ch32_wait_loop env mask fuel r.val.1 r.t with
      | none => none
      | some o => some ⟨(), o.t, r.tr ++ o.tr⟩

/-- `ch32_wait_flash`: read FLASH_STATR once, then re-read while the
BUSY bit is set. -/
def ch32_wait_flash (env : Nat → Nat) (fuel t : Nat) : Option (MOut Unit) :=
  let r := ch32_read_memory_word env CH32_FLASH_STATR t
  match ch32_wait_loop env CH32_FLASH_STATR_BUSY fuel r.val.1 r.t with
  | none => none
  | some o => some ⟨(), o.t, r.tr ++ o.tr⟩

/-- `ch32_wait_flash_write`: read FLASH_STATR once, then re-read while
the WRBUSY bit is set. -/
def ch32_wait_flash_write (env : Nat → Nat) (fuel t : Nat) : Option (MOut Unit) :=
  let r := ch32_read_memory_word env CH32_FLASH_STATR t
  match ch32_wait_loop env CH32_FLASH_STATR_WRBUSY fuel r.val.1 r.t with
  | none => none
  | some o => some ⟨(), o.t, r.tr ++ o.tr⟩

/-- `ch32_unlock_flash`: read FLASH_CTLR (the short-circuit on its
value is commented out in the source and therefore absent here), write
the fixed key pair to the three key registers, re-read FLASH_CTLR and
succeed if the lock bits (mask 0x8080) are clear. -/
def ch32_unlock_flash (env : Nat → Nat) (t : Nat) : MOut Bool :=
  let r1 := ch32_read_memory_word env CH32_FLASH_CTLR t
  let k1 := ch32_write_memory_word 0x40022004 0x45670123 r1.t
  let k2 := ch32_write_memory_word 0x40022004 0xCDEF89AB k1.t
  let k3 := ch32_write_memory_word 0x40022008 0x45670123 k2.t
  let k4 := ch32_write_memory_word 0x40022008 0xCDEF89AB k3.t
  let k5 := ch32_write_memory_word 0x40022024 0x45670123 k4.t
  let k6 := ch32_write_memory_word 0x40022024 0xCDEF89AB k5.t
  let r2 := ch32_read_memory_word env CH32_FLASH_CTLR k6.t
  ⟨r2.val.1 &&& 0x8080 == 0, r2.t,
    r1.tr ++ k1.tr ++ k2.tr ++ k3.tr ++ k4.tr ++ k5.tr ++ k6.tr ++ r2.tr⟩

/-- `ch32_erase_flash_block`: reject addresses that are not a multiple
of 256 (no hardware access); otherwise wait, set fast-erase mode, set
the block address, set fast-erase + start, wait, clear the control
bits. -/
def ch32_erase_flash_block (env : Nat → Nat) (fuel addr t : Nat) : Option (MOut Bool) :=
  let a := addr % U32
  if a % 256 ≠ 0 then some ⟨false, t, [Ev.erase a]⟩
  else
    match ch32_wait_flash env fuel t with
    | none => none
    | some w1 =>
      let m1 := ch32_write_memory_word CH32_FLASH_CTLR CH32_FLASH_CTLR_FTER w1.t
      let m2 := ch32_write_memory_word CH32_FLASH_ADDR a m1.t
      let m3 := ch32_write_memory_word CH32_FLASH_CTLR
        (CH32_FLASH_CTLR_FTER ||| CH32_FLASH_CTLR_STRT) m2.t
      match ch32_wait_flash env fuel m3.t with
      | none => none
      | some w2 =>
        let m4 := ch32_write_memory_word CH32_FLASH_CTLR 0 w2.t
        some ⟨true, m4.t,
          Ev.erase a :: (w1.tr ++ m1.tr ++ m2.tr ++ m3.tr ++ w2.tr ++ m4.tr)⟩

/-- Word `i` of the 64-word block staged from a byte buffer
(`memcpy(wdata, data, 256)`). -/
def blockWord (data : Nat → Nat) (i : Nat) : Nat := word4 data (4 * i)

/-- The 64-iteration programming loop of `ch32_write_flash_block`:
write word `i` to `addr + 4*i` through the memory bridge, then wait
for the WRBUSY bit to clear. -/
def ch32_pgm_words (env : Nat → Nat) (fuel a : Nat) (w : Nat → Nat) :
    Nat → Nat → Nat → Option (Nat × List Ev)
  | 0, _, t => some (t, [])
  | n + 1, i, t =>
    let m := ch32_write_memory_word (a + 4 * i) (w i) t
    match ch32_wait_flash_write env fuel m.t with
    | none => none
    | some o =>
      match ch32_pgm_words env fuel a w n (i + 1) o.t with
      | none => none
      | some p => some (p.1, m.tr ++ o.tr ++ p.2)

/-- The 64-iteration read-back loop of `ch32_write_flash_block`:
read the word at `addr + 4*i` for each `i`, collecting the values. -/
def ch32_readback (env : Nat → Nat) (a : Nat) :
    Nat → Nat → Nat → List Nat × Nat × List Ev
  | 0, _, t => ([], t, [])
  | n + 1, i, t =>
    let r := ch32_read_memory_word env (a + 4 * i) t
    let rest := ch32_readback env a n (i + 1) r.t
    (r.val.1 :: rest.1, rest.2.1, r.tr ++ rest.2.2)

/-- `ch32_write_flash_block`: reject addresses that are not a multiple
of 256 (no hardware access); otherwise wait, set fast-program mode,
set the block address, write the 64 staged words one by one (waiting
for WRBUSY after each), start page programming, wait, clear the
control bits, then read all 64 words back and succeed exactly when
they equal the staged words (`memcmp`). -/
def ch32_write_flash_block (env : Nat → Nat) (fuel addr : Nat) (data : Nat → Nat)
    (t : Nat) : Option (MOut Bool) :=
  let a := addr % U32
  if a % 256 ≠ 0 then some ⟨false, t, [Ev.pgm a]⟩
  else
    match ch32_wait_flash env fuel t with
    | none => none
    | some w1 =>
      let m1 := ch32_write_memory_word CH32_FLASH_CTLR CH32_FLASH_CTLR_FTPG w1.t
      let m2 := ch32_write_memory_word CH32_FLASH_ADDR a m1.t
      match ch32_pgm_words env fuel a (blockWord data) 64 0 m2.t with
      | none => none
      | some p =>
        let m4 := ch32_write_memory_word CH32_FLASH_CTLR
          (CH32_FLASH_CTLR_FTPG ||| CH32_FLASH_CTLR_PGSTRT) p.1
        match ch32_wait_flash env fuel m4.t with
        | none => none
        | some w2 =>
          let m5 := ch32_write_memory_word CH32_FLASH_CTLR 0 w2.t
          let rb := ch32_readback env a 64 0 m5.t
          some ⟨(List.range 64).map (blockWord data) == rb.1, rb.2.1,
            Ev.pgm a ::
              (w1.tr ++ m1.tr ++ m2.tr ++ p.2 ++ m4.tr ++ w2.tr ++ m5.tr ++ rb.2.2)⟩

/-- The chunk loop of `ch32_write_flash` (`for (i = 0; i < data_len;
i += 256)`), structurally recursing on the number of remaining
256-byte chunks: report progress `(i, data_len)` to the status
callback, erase the block at `a + i`, program the block from the bytes
at offset `i`, abort on the first failure. -/
def ch32_write_flash_loop (env : Nat → Nat) (fuel a : Nat) (data : Nat → Nat)
    (len : Nat) : Nat → Nat → Nat → Option (MOut Bool)
  | 0, _, t => some ⟨true, t, []⟩
  | n + 1, i, t =>
    match ch32_erase_flash_block env fuel (a + i) t with
    | none => none
    | some er =>
      if er.val = false then some ⟨false, er.t, Ev.cb i len :: er.tr⟩
      else
        match ch32_write_flash_block env fuel (a + i) (fun j => data (i + j)) er.t with
        | none => none
        | some pg =>
          if pg.val = false then
            some ⟨false, pg.t, Ev.cb i len :: (er.tr ++ pg.tr)⟩
          else
            match ch32_write_flash_loop env fuel a data len n (i + 256) pg.t with
            | none => none
            | some rest =>
              some ⟨rest.val, rest.t, Ev.cb i len :: (er.tr ++ pg.tr ++ rest.tr)⟩

/-- `ch32_write_flash`: reject base addresses that are not a multiple
of 64 (no hardware access), otherwise run the chunk loop over
`ceil(data_len / 256)` chunks starting at offset 0. -/
def ch32_write_flash (env : Nat → Nat) (fuel addr : Nat) (data : Nat → Nat)
    (len t : Nat) : Option (MOut Bool) :=
  let a := addr % U32
  if a % 64 ≠ 0 then some ⟨false, t, []⟩
  else ch32_write_flash_loop env fuel a data len ((len + 255) / 256) 0 t

/-- Modelled from the spec: the transport's `init` and `reset`
entry points are external (`rvswd_init` / `rvswd_reset` live in the
out-of-scope transport component); their results are supplied by the
environment. -/
structure RvswdEnv where
  read : Nat → Nat
  initRes : rvswd_result_t
  resetRes : rvswd_result_t

/-- `ch32_program`: transport init → transport reset → halt → unlock
flash → write flash at 0x08000000 → reset-and-run, each step entered
only if all previous steps succeeded (marker events record entry into
each step); the C function returns `void`. -/
def ch32_program (env : RvswdEnv) (fuel : Nat) (firmware : Nat → Nat)
    (len t : Nat) : Option (MOut Unit) :=
  if env.initRes ≠ rvswd_result_t.RVSWD_OK then some ⟨(), t, [Ev.mInit]⟩
  else if env.resetRes ≠ rvswd_result_t.RVSWD_OK then
    some ⟨(), t, [Ev.mInit, Ev.mReset]⟩
  else
    let h := ch32_halt_microprocessor env.read t
    if h.val ≠ rvswd_result_t.RVSWD_OK then
      some ⟨(), h.t, Ev.mInit :: Ev.mReset :: Ev.mHalt :: h.tr⟩
    else
      let u := ch32_unlock_flash env.read h.t
      if u.val = false then
        some ⟨(), u.t,
          Ev.mInit :: Ev.mReset :: Ev.mHalt :: (h.tr ++ (Ev.mUnlock :: u.tr))⟩
      else
        match ch32_write_flash env.read fuel 0x08000000 firmware len u.t with
        | none => none
        | some w =>
          if w.val = false then
            some ⟨(), w.t,
              Ev.mInit :: Ev.mReset :: Ev.mHalt ::
                (h.tr ++ (Ev.mUnlock :: u.tr) ++ (Ev.mWriteFlash 0x08000000 :: w.tr))⟩
          else
            let rr := ch32_reset_microprocessor_and_run env.read w.t
            some ⟨(), rr.t,
              Ev.mInit :: Ev.mReset :: Ev.mHalt ::
                (h.tr ++ (Ev.mUnlock :: u.tr) ++ (Ev.mWriteFlash 0x08000000 :: w.tr) ++
                  (Ev.mRun :: rr.tr))⟩

/-- Transport-level (hardware) accesses: raw debug-module register
writes/reads and the memory-bridge annotations that accompany them. -/
def isHw : Ev → Bool
  | Ev.wr _ _ => true
  | Ev.rd _ _ => true
  | Ev.memWr _ _ => true
  | Ev.memRd _ _ => true
  | _ => false

/-- Transport reads (`rvswd_read` events). -/
def isRd : Ev → Bool
  | Ev.rd _ _ => true
  | _ => false

/-- Step markers of the `ch32_program` sequence. -/
def isMarker : Ev → Bool
  | Ev.mInit => true
  | Ev.mReset => true
  | Ev.mHalt => true
  | Ev.mUnlock => true
  | Ev.mWriteFlash _ => true
  | Ev.mRun => true
  | _ => false

/-- Flash-programming steps visible in a `ch32_write_flash` trace:
a status-callback invocation, entry into a block erase, entry into a
block program. -/
inductive FStep : Type where
  | sCb (progress total : Nat)
  | sEr (addr : Nat)
  | sPg (addr : Nat)
  deriving DecidableEq, Repr

def fstep : Ev → Option FStep
  | Ev.cb p tot => some (FStep.sCb p tot)
  | Ev.erase a => some (FStep.sEr a)
  | Ev.pgm a => some (FStep.sPg a)
  | _ => none

def memWrOf : Ev → Option (Nat × Nat)
  | Ev.memWr a v => some (a, v)
  | _ => none

/-- Number of transport reads recorded in a trace. -/
def rdCount (tr : List Ev) : Nat := (tr.filter isRd).length

/-- A trace consisting solely of hardware (transport-level) events. -/
def hwOnly (tr : List Ev) : Prop := ∀ e ∈ tr, isHw e = true

lemma hwOnly_append {a b : List Ev} (ha : hwOnly a) (hb : hwOnly b) :
    hwOnly (a ++ b) := by
  intro e he
  rcases List.mem_append.1 he with h | h
  · exact ha e h
  · exact hb e h

lemma fstep_eq_none_of_hw {e : Ev} (h : isHw e = true) : fstep e = none := by
  cases e <;> simp_all [isHw, fstep]

lemma isMarker_eq_false_of_hw {e : Ev} (h : isHw e = true) : isMarker e = false := by
  cases e <;> simp_all [isHw, isMarker]

lemma filterMap_fstep_eq_nil {tr : List Ev} (h : hwOnly tr) :
    tr.filterMap fstep = [] :=
  List.filterMap_eq_nil_iff.2 fun e he => fstep_eq_none_of_hw (h e he)

lemma filter_isMarker_eq_nil {tr : List Ev} (h : ∀ e ∈ tr, isMarker e = false) :
    tr.filter isMarker = [] :=
  List.filter_eq_nil_iff.2 fun e he => by simp [h e he]

lemma hwOnly_write_cpu_reg (regno value t : Nat) :
    hwOnly (ch32_write_cpu_reg regno value t).tr := by
  intro e he
  simp only [ch32_write_cpu_reg, List.mem_cons, List.not_mem_nil, or_false] at he
  rcases he with rfl | rfl <;> rfl

lemma hwOnly_read_cpu_reg (env : Nat → Nat) (regno t : Nat) :
    hwOnly (ch32_read_cpu_reg env regno t).tr := by
  intro e he
  simp only [ch32_read_cpu_reg, List.mem_cons, List.not_mem_nil, or_false] at he
  rcases he with rfl | rfl <;> rfl

lemma hwOnly_run_debug_code (code : List Nat) (t : Nat) :
    hwOnly (ch32_run_debug_code code t).tr := by
  intro e he
  unfold ch32_run_debug_code at he
  split at he
  · simp at he
  · split at he
    · simp at he
    · simp only [List.mem_append, List.mem_map, List.mem_range, List.mem_cons,
        List.not_mem_nil, or_false] at he
      rcases he with ⟨i, _, rfl⟩ | rfl <;> rfl

lemma hwOnly_read_memory_word (env : Nat → Nat) (address t : Nat) :
    hwOnly (ch32_read_memory_word env address t).tr := by
  refine hwOnly_append (hwOnly_append (hwOnly_append (hwOnly_write_cpu_reg _ _ _)
    (hwOnly_run_debug_code _ _)) (hwOnly_read_cpu_reg _ _ _)) ?_
  intro e he
  simp only [List.mem_cons, List.not_mem_nil, or_false] at he
  subst he; rfl

lemma hwOnly_write_memory_word (address value t : Nat) :
    hwOnly (ch32_write_memory_word address value t).tr := by
  intro e he
  simp only [ch32_write_memory_word, List.mem_cons] at he
  rcases he with rfl | he
  · rfl
  · exact hwOnly_append (hwOnly_append (hwOnly_write_cpu_reg _ _ _)
      (hwOnly_write_cpu_reg _ _ _)) (hwOnly_run_debug_code _ _) e he

lemma hwOnly_poll (env : Nat → Nat) (check : Nat → Bool) :
    ∀ n t, hwOnly (ch32_poll env check n t).tr := by
  intro n
  induction n with
  | zero =>
    intro t e he
    simp only [ch32_poll, List.mem_cons, List.not_mem_nil, or_false] at he
    subst he; rfl
  | succ n ih =>
    intro t e he
    simp only [ch32_poll] at he
    split at he
    · simp only [List.mem_cons, List.not_mem_nil, or_false] at he
      subst he; rfl
    · simp only [List.mem_cons] at he
      rcases he with rfl | he
      · rfl
      · exact ih (t + 1) e he

lemma hwOnly_wait_loop (env : Nat → Nat) (mask : Nat) :
    ∀ fuel value t o, ch32_wait_loop env mask fuel value t = some o → hwOnly o.tr := by
  intro fuel
  induction fuel with
  | zero =>
    intro value t o h
    unfold ch32_wait_loop at h
    split at h
    · cases h; intro e he; simp at he
    · cases h
  | succ fuel ih =>
    intro value t o h
    unfold ch32_wait_loop at h
    split at h
    · cases h; intro e he; simp at he
    · revert h
      dsimp only
      split
      · intro h; cases h
      · intro h
        rename_i o2 h2
        cases h
        exact hwOnly_append (hwOnly_read_memory_word _ _ _) (ih _ _ _ h2)

lemma hwOnly_wait_flash (env : Nat → Nat) (fuel t : Nat) (o : MOut Unit)
    (h : ch32_wait_flash env fuel t = some o) : hwOnly o.tr := by
  unfold ch32_wait_flash at h
  revert h
  dsimp only
  split
  · intro h; cases h
  · intro h
    rename_i o2 h2
    cases h
    exact hwOnly_append (hwOnly_read_memory_word _ _ _) (hwOnly_wait_loop _ _ _ _ _ _ h2)

lemma hwOnly_wait_flash_write (env : Nat → Nat) (fuel t : Nat) (o : MOut Unit)
    (h : ch32_wait_flash_write env fuel t = some o) : hwOnly o.tr := by
  unfold ch32_wait_flash_write at h
  revert h
  dsimp only
  split
  · intro h; cases h
  · intro h
    rename_i o2 h2
    cases h
    exact hwOnly_append (hwOnly_read_memory_word _ _ _) (hwOnly_wait_loop _ _ _ _ _ _ h2)

lemma hwOnly_unlock_flash (env : Nat → Nat) (t : Nat) :
    hwOnly (ch32_unlock_flash env t).tr := by
  refine hwOnly_append (hwOnly_append (hwOnly_append (hwOnly_append (hwOnly_append
    (hwOnly_append (hwOnly_append (hwOnly_read_memory_word _ _ _)
      (hwOnly_write_memory_word _ _ _)) (hwOnly_write_memory_word _ _ _))
      (hwOnly_write_memory_word _ _ _)) (hwOnly_write_memory_word _ _ _))
      (hwOnly_write_memory_word _ _ _)) (hwOnly_write_memory_word _ _ _))
    (hwOnly_read_memory_word _ _ _)

lemma hwOnly_halt (env : Nat → Nat) (t : Nat) :
    hwOnly (ch32_halt_microprocessor env t).tr := by
  unfold ch32_halt_microprocessor
  dsimp only
  split
  · refine hwOnly_append (hwOnly_append ?_ (hwOnly_poll _ _ _ _)) ?_
    · intro e he
      simp only [List.mem_cons, List.not_mem_nil, or_false] at he
      rcases he with rfl | rfl <;> rfl
    · intro e he
      simp only [List.mem_cons, List.not_mem_nil, or_false] at he
      subst he; rfl
  · refine hwOnly_append ?_ (hwOnly_poll _ _ _ _)
    intro e he
    simp only [List.mem_cons, List.not_mem_nil, or_false] at he
    rcases he with rfl | rfl <;> rfl

lemma hwOnly_resume (env : Nat → Nat) (t : Nat) :
    hwOnly (ch32_resume_microprocessor env t).tr := by
  refine hwOnly_append ?_ (hwOnly_poll _ _ _ _)
  intro e he
  simp only [ch32_resume_microprocessor, List.mem_cons, List.not_mem_nil, or_false] at he
  rcases he with rfl | rfl | rfl | rfl <;> rfl

lemma hwOnly_reset_and_run (env : Nat → Nat) (t : Nat) :
    hwOnly (ch32_reset_microprocessor_and_run env t).tr := by
  unfold ch32_reset_microprocessor_and_run
  dsimp only
  split
  · refine hwOnly_append (hwOnly_append ?_ (hwOnly_poll _ _ _ _)) ?_
    · intro e he
      simp only [List.mem_cons, List.not_mem_nil, or_false] at he
      rcases he with rfl | rfl | rfl | rfl <;> rfl
    · intro e he
      simp only [List.mem_cons, List.not_mem_nil, or_false] at he
      rcases he with rfl | rfl | rfl <;> rfl
  · refine hwOnly_append ?_ (hwOnly_poll _ _ _ _)
    intro e he
    simp only [List.mem_cons, List.not_mem_nil, or_false] at he
    rcases he with rfl | rfl | rfl | rfl <;> rfl

lemma map_range_succ_left {α : Type} (f : Nat → α) (n : Nat) :
    List.map f (List.range (n + 1)) = f 0 :: List.map (fun j => f (j + 1)) (List.range n) := by
  rw [List.range_succ_eq_map, List.map_cons, List.map_map]
  rfl

lemma ch32_poll_never (env : Nat → Nat) (check : Nat → Bool)
    (h : ∀ i, check (env i % U32) = false) :
    ∀ n t, ch32_poll env check n t =
      ⟨false, t + (n + 1),
        (List.range (n + 1)).map
          (fun j => Ev.rd CH32_REG_DEBUG_DMSTATUS (env (t + j) % U32))⟩ := by
  intro n
  induction n with
  | zero =>
    intro t
    have h0 : List.range 1 = [0] := rfl
    simp [ch32_poll, h t, h0]
  | succ n ih =>
    intro t
    have hc : check (env t % U32) = false := h t
    simp only [ch32_poll, hc, Bool.false_eq_true, if_false, ih (t + 1), MOut.mk.injEq]
    refine ⟨trivial, by omega, ?_⟩
    rw [map_range_succ_left (fun j => Ev.rd CH32_REG_DEBUG_DMSTATUS (env (t + j) % U32))]
    simp only [Nat.add_zero]
    congr 1
    refine List.map_inj_left.2 ?_
    intro a ha
    have hta : t + 1 + a = t + (a + 1) := by omega
    rw [hta]

lemma rdCount_append (a b : List Ev) : rdCount (a ++ b) = rdCount a + rdCount b := by
  simp [rdCount, List.filter_append]

lemma rdCount_rd_map (n : Nat) (f : Nat → Nat) :
    rdCount ((List.range n).map fun j => Ev.rd CH32_REG_DEBUG_DMSTATUS (f j)) = n := by
  unfold rdCount
  rw [List.filter_eq_self.2, List.length_map, List.length_range]
  intro a ha
  rcases List.mem_map.1 ha with ⟨j, _, rfl⟩
  rfl

/-- C2 (amended): with a status register that never shows the expected
bit pattern, `ch32_halt_microprocessor`, `ch32_resume_microprocessor`
and `ch32_reset_microprocessor_and_run` each return the failure result
after exactly 6 status polls (one initial poll plus 5 retries) — not
before, and not indefinitely. -/
theorem ch32_cpu_control_timeout_after_six_polls (env : Nat → Nat) (t : Nat)
    (hh : ∀ i, ((env i % U32) >>> 8) &&& 3 ≠ 3)
    (hr : ∀ i, ((env i % U32) >>> 10) &&& 3 ≠ 3)
    (hz : ∀ i, ((env i % U32) >>> 18) &&& 3 ≠ 3) :
    (ch32_halt_microprocessor env t).val = rvswd_result_t.RVSWD_FAIL ∧
    rdCount (ch32_halt_microprocessor env t).tr = 6 ∧
    (ch32_resume_microprocessor env t).val = rvswd_result_t.RVSWD_FAIL ∧
    rdCount (ch32_resume_microprocessor env t).tr = 6 ∧
    (ch32_reset_microprocessor_and_run env t).val = rvswd_result_t.RVSWD_FAIL ∧
    rdCount (ch32_reset_microprocessor_and_run env t).tr = 6 := by
  have hh2 : ∀ i, ((fun v => (v >>> 8) &&& 3 == 3) (env i % U32)) = false := by
    intro i
    simp only [beq_eq_false_iff_ne, ne_eq]
    exact hh i
  have hr2 : ∀ i, ((fun v => (v >>> 10) &&& 3 == 3) (env i % U32)) = false := by
    intro i
    simp only [beq_eq_false_iff_ne, ne_eq]
    exact hr i
  have hz2 : ∀ i, ((fun v => (v >>> 18) &&& 3 == 3) (env i % U32)) = false := by
    intro i
    simp only [beq_eq_false_iff_ne, ne_eq]
    exact hz i
  have ph := ch32_poll_never env (fun v => (v >>> 8) &&& 3 == 3) hh2 5 t
  have pr := ch32_poll_never env (fun v => (v >>> 10) &&& 3 == 3) hr2 5 t
  have pz := ch32_poll_never env (fun v => (v >>> 18) &&& 3 == 3) hz2 5 t
  refine ⟨?_, ?_, ?_, ?_, ?_, ?_⟩
  · simp only [ch32_halt_microprocessor, ph, Bool.false_eq_true, if_false]
  · simp only [ch32_halt_microprocessor, ph, Bool.false_eq_true, if_false,
      rdCount_append, rdCount_rd_map]
    rfl
  · simp only [ch32_resume_microprocessor, pr, Bool.false_eq_true, if_false]
  · simp only [ch32_resume_microprocessor, pr, rdCount_append, rdCount_rd_map]
    rfl
  · simp only [ch32_reset_microprocessor_and_run, pz, Bool.false_eq_true, if_false]
  · simp only [ch32_reset_microprocessor_and_run, pz, Bool.false_eq_true, if_false,
      rdCount_append, rdCount_rd_map]
    rfl

/-- C2 (counterexample to the claim as stated): with a status register
that constantly reads 0, `ch32_halt_microprocessor` does return the
failure result, but only after 6 polls of DMSTATUS, not 5. -/
theorem ch32_halt_six_polls_counterexample :
    (ch32_halt_microprocessor (fun _ => 0) 0).val = rvswd_result_t.RVSWD_FAIL ∧
    rdCount (ch32_halt_microprocessor (fun _ => 0) 0).tr = 6 ∧
    rdCount (ch32_halt_microprocessor (fun _ => 0) 0).tr ≠ 5 := by
  decide

theorem ch32_cpu_control_timeout_after_six_polls_witness :
    (ch32_halt_microprocessor (fun _ => 0) 0).val = rvswd_result_t.RVSWD_FAIL ∧
    rdCount (ch32_halt_microprocessor (fun _ => 0) 0).tr = 6 ∧
    (ch32_resume_microprocessor (fun _ => 0) 0).val = rvswd_result_t.RVSWD_FAIL ∧
    rdCount (ch32_resume_microprocessor (fun _ => 0) 0).tr = 6 ∧
    (ch32_reset_microprocessor_and_run (fun _ => 0) 0).val = rvswd_result_t.RVSWD_FAIL ∧
    rdCount (ch32_reset_microprocessor_and_run (fun _ => 0) 0).tr = 6 :=
  ch32_cpu_control_timeout_after_six_polls (fun _ => 0) 0
    (by intro i; show (0 % U32) >>> 8 &&& 3 ≠ 3; decide)
    (by intro i; show (0 % U32) >>> 10 &&& 3 ≠ 3; decide)
    (by intro i; show (0 % U32) >>> 18 &&& 3 ≠ 3; decide)

/-- C1: `ch32_resume_microprocessor` does NOT succeed exactly when
DMSTATUS bits [17:16] read 0b11: it checks bits [11:10]
(`(value >> 10) & 0b11` in the source, contradicting the source's own
comment "check rdata[17:16]").  With DMSTATUS constantly 0x30000
(bits [17:16] = 0b11, bits [11:10] = 0b00) the resume operation fails,
and with DMSTATUS constantly 0xC00 (bits [11:10] = 0b11,
bits [17:16] = 0b00) it succeeds. -/
theorem ch32_resume_checks_bits_11_10 :
    (ch32_resume_microprocessor (fun _ => 0x30000) 0).val = rvswd_result_t.RVSWD_FAIL ∧
    ((0x30000 >>> 16) &&& 3) = 3 ∧
    (ch32_resume_microprocessor (fun _ => 0xC00) 0).val = rvswd_result_t.RVSWD_OK ∧
    ((0xC00 >>> 16) &&& 3) = 0 := by
  decide

/-- C9: the abstract-command register accessors and the memory-bridge
word accessors return `true` unconditionally — the C functions ignore
the results of the underlying `rvswd_write`/`rvswd_read` calls and of
the program-buffer run, so no transport failure is ever propagated
through their boolean result (the model's read oracle `env` ranges
over all possible transport behaviours). -/
theorem ch32_bridge_ops_always_true (env : Nat → Nat)
    (regno value address t : Nat) :
    (ch32_write_cpu_reg regno value t).val = true ∧
    (ch32_read_cpu_reg env regno t).val.2 = true ∧
    (ch32_read_memory_word env address t).val.2 = true ∧
    (ch32_write_memory_word address value t).val = true :=
  ⟨rfl, rfl, rfl, rfl⟩

/-- C4: `ch32_unlock_flash` always performs the full key sequence —
the key pair 0x45670123 / 0xCDEF89AB written to each of the three key
registers 0x40022004, 0x40022008, 0x40022024, six memory writes in
total, whatever the initially read control-register value (the read
oracle `env` is arbitrary) — then re-reads FLASH_CTLR (the second read
of the run, value `env (t+1)`) and succeeds if and only if the lock
bits (mask 0x8080) are clear in that re-read value. -/
theorem ch32_unlock_flash_key_sequence (env : Nat → Nat) (t : Nat) :
    (ch32_unlock_flash env t).tr.filterMap memWrOf =
      [(0x40022004, 0x45670123), (0x40022004, 0xCDEF89AB),
       (0x40022008, 0x45670123), (0x40022008, 0xCDEF89AB),
       (0x40022024, 0x45670123), (0x40022024, 0xCDEF89AB)] ∧
    ((ch32_unlock_flash env t).val = true ↔ (env (t + 1) % U32) &&& 0x8080 = 0) ∧
    Ev.memRd CH32_FLASH_CTLR (env (t + 1) % U32) ∈ (ch32_unlock_flash env t).tr := by
  refine ⟨rfl, ?_, ?_⟩
  · show ((env (t + 1) % U32) &&& 0x8080 == 0) = true ↔ (env (t + 1) % U32) &&& 0x8080 = 0
    simp [beq_iff_eq]
  · simp [ch32_unlock_flash, ch32_read_memory_word, ch32_write_memory_word,
      ch32_write_cpu_reg, ch32_read_cpu_reg, ch32_run_debug_code, ch32_readmem,
      ch32_writemem, CH32_FLASH_CTLR, U32]

lemma getD_pad (code : List Nat) (j : Nat) :
    code.getD j 0 = if j < code.length then code.getD j 0 else 0 := by
  split
  · rfl
  · next h =>
    simp [List.getD_eq_getElem?_getD, List.getElem?_eq_none (Nat.le_of_not_lt h)]

/-- C6: `ch32_run_debug_code` rejects code longer than 32 bytes, and
code of odd length, in both cases without emitting any event (in
particular no program-buffer write); otherwise it succeeds, writing
exactly eight 32-bit words — the code zero-padded to 32 bytes — into
program-buffer registers 0x20..0x27 in order, followed by the single
command write 0x240000 = (0 << 17) | (1 << 18) | (2 << 20) | (0 << 24)
{do not transfer, run program buffer, 32-bit width, access-register
command}. -/
theorem ch32_run_debug_code_program_buffer (code : List Nat) (t : Nat) :
    (32 < code.length ∨ code.length % 2 = 1 →
      ch32_run_debug_code code t = ⟨false, t, []⟩) ∧
    (code.length ≤ 32 → code.length % 2 = 0 →
      (ch32_run_debug_code code t).val = true ∧
      (ch32_run_debug_code code t).tr =
        (List.range 8).map (fun i => Ev.wr (CH32_REG_DEBUG_PROGBUF0 + i)
          (word4 (fun j => if j < code.length then code.getD j 0 else 0) (4 * i))) ++
        [Ev.wr CH32_REG_DEBUG_COMMAND 0x240000]) := by
  have hpad : (fun j => code.getD j 0) =
      (fun j => if j < code.length then code.getD j 0 else 0) :=
    funext fun j => getD_pad code j
  constructor
  · rintro (h | h)
    · unfold ch32_run_debug_code
      rw [if_pos h]
    · unfold ch32_run_debug_code
      split
      · rfl
      · rfl
  · intro h32 hev
    have h1 : ¬ 32 < code.length := Nat.not_lt.2 h32
    have h2 : ¬ code.length % 2 = 1 := by omega
    unfold ch32_run_debug_code
    rw [if_neg h1, if_neg h2]
    refine ⟨rfl, ?_⟩
    show (List.range 8).map
        (fun i => Ev.wr (CH32_REG_DEBUG_PROGBUF0 + i) (progWord code i)) ++
        [Ev.wr CH32_REG_DEBUG_COMMAND ((1 <<< 18) ||| (2 <<< 20))] = _
    simp only [progWord]
    rw [hpad]
    have : (1 <<< 18 ||| 2 <<< 20 : Nat) = 2359296 := by decide
    rw [this]

theorem ch32_run_debug_code_program_buffer_witness :
    ch32_run_debug_code (List.replicate 33 0) 0 = ⟨false, 0, []⟩ ∧
    ch32_run_debug_code [1] 0 = ⟨false, 0, []⟩ ∧
    (ch32_run_debug_code [0x13, 0x05] 0).val = true ∧
    (ch32_run_debug_code [0x13, 0x05] 0).tr =
      (List.range 8).map (fun i => Ev.wr (CH32_REG_DEBUG_PROGBUF0 + i)
        (word4 (fun j => if j < ([0x13, 0x05] : List Nat).length
          then ([0x13, 0x05] : List Nat).getD j 0 else 0) (4 * i))) ++
      [Ev.wr CH32_REG_DEBUG_COMMAND 0x240000] :=
  ⟨(ch32_run_debug_code_program_buffer (List.replicate 33 0) 0).1 (Or.inl (by decide)),
   (ch32_run_debug_code_program_buffer [1] 0).1 (Or.inr (by decide)),
   ((ch32_run_debug_code_program_buffer [0x13, 0x05] 0).2 (by decide) (by decide)).1,
   ((ch32_run_debug_code_program_buffer [0x13, 0x05] 0).2 (by decide) (by decide)).2⟩

/-- C7: for every address that is not a multiple of 256,
`ch32_erase_flash_block` and `ch32_write_flash_block` each return
failure immediately, emitting only their entry-marker event — which is
not a hardware access — so no transport read or write is performed. -/
theorem ch32_flash_block_alignment_rejection (env : Nat → Nat)
    (fuel addr t : Nat) (data : Nat → Nat) (h : addr % U32 % 256 ≠ 0) :
    ch32_erase_flash_block env fuel addr t = some ⟨false, t, [Ev.erase (addr % U32)]⟩ ∧
    ch32_write_flash_block env fuel addr data t = some ⟨false, t, [Ev.pgm (addr % U32)]⟩ ∧
    isHw (Ev.erase (addr % U32)) = false ∧
    isHw (Ev.pgm (addr % U32)) = false := by
  refine ⟨?_, ?_, rfl, rfl⟩
  · unfold ch32_erase_flash_block
    dsimp only
    rw [if_pos h]
  · unfold ch32_write_flash_block
    dsimp only
    rw [if_pos h]

theorem ch32_flash_block_alignment_rejection_witness :
    ch32_erase_flash_block (fun _ => 0) 0 1 0 = some ⟨false, 0, [Ev.erase (1 % U32)]⟩ ∧
    ch32_write_flash_block (fun _ => 0) 0 1 (fun _ => 0) 0 =
      some ⟨false, 0, [Ev.pgm (1 % U32)]⟩ ∧
    isHw (Ev.erase (1 % U32)) = false ∧
    isHw (Ev.pgm (1 % U32)) = false :=
  ch32_flash_block_alignment_rejection (fun _ => 0) 0 1 0 (fun _ => 0) (by decide)

lemma read_memory_word_mem (env : Nat → Nat) (address t : Nat) :
    Ev.memRd (address % U32) (env t % U32) ∈ (ch32_read_memory_word env address t).tr := by
  simp [ch32_read_memory_word, ch32_read_cpu_reg, ch32_run_debug_code,
    ch32_write_cpu_reg, ch32_readmem]

lemma ch32_readback_spec (env : Nat → Nat) (a : Nat) :
    ∀ n i t,
      (ch32_readback env a n i t).1 =
        (List.range n).map (fun j => env (t + j) % U32) ∧
      (ch32_readback env a n i t).2.1 = t + n ∧
      ∀ j < n, Ev.memRd ((a + 4 * (i + j)) % U32) (env (t + j) % U32) ∈
        (ch32_readback env a n i t).2.2 := by
  intro n
  induction n with
  | zero =>
    intro i t
    refine ⟨rfl, rfl, ?_⟩
    intro j hj
    exact absurd hj (Nat.not_lt_zero j)
  | succ n ih =>
    intro i t
    obtain ⟨ih1, ih2, ih3⟩ := ih (i + 1) (t + 1)
    refine ⟨?_, ?_, ?_⟩
    · show (env t % U32) :: (ch32_readback env a n (i + 1) (t + 1)).1 = _
      rw [ih1, map_range_succ_left (fun j => env (t + j) % U32)]
      simp only [Nat.add_zero]
      congr 1
      refine List.map_inj_left.2 fun b hb => ?_
      have hb2 : t + 1 + b = t + (b + 1) := by omega
      rw [hb2]
    · show (ch32_readback env a n (i + 1) (t + 1)).2.1 = t + (n + 1)
      rw [ih2]
      omega
    · intro j hj
      show Ev.memRd _ _ ∈ (ch32_read_memory_word env (a + 4 * i) t).tr ++
        (ch32_readback env a n (i + 1) (t + 1)).2.2
      cases j with
      | zero =>
        apply List.mem_append_left
        simpa using read_memory_word_mem env (a + 4 * i) t
      | succ j2 =>
        apply List.mem_append_right
        have hm := ih3 j2 (by omega)
        have e1 : i + 1 + j2 = i + (j2 + 1) := by omega
        have e2 : t + 1 + j2 = t + (j2 + 1) := by omega
        rw [e1, e2] at hm
        exact hm

/-- C5: for a 256-byte-aligned address, `ch32_write_flash_block`, after
the programming sequence, reads back all 64 words at the block address
(the last 64 transport reads of the run, values `env (o.t - 64 + i)`)
and returns success if and only if all 64 read-back words equal the 64
staged words `blockWord data i` (the `memcmp` of the byte-identical
`uint32_t` arrays); any mismatch yields `false`, with no retry. -/
theorem ch32_write_flash_block_verify_iff (env : Nat → Nat) (fuel addr t : Nat)
    (data : Nat → Nat) (o : MOut Bool)
    (ha : addr % U32 % 256 = 0)
    (h : ch32_write_flash_block env fuel addr data t = some o) :
    ((o.val = true) ↔ ∀ i < 64, env (o.t - 64 + i) % U32 = blockWord data i) ∧
    (∀ i < 64, Ev.memRd ((addr % U32 + 4 * i) % U32) (env (o.t - 64 + i) % U32) ∈ o.tr) := by
  unfold ch32_write_flash_block at h
  dsimp only at h
  split at h
  · next hc => exact absurd ha hc
  · next hc =>
    split at h
    · exact Option.noConfusion h
    · next w1 hw1 =>
      split at h
      · exact Option.noConfusion h
      · next p hp =>
        split at h
        · exact Option.noConfusion h
        · next w2 hw2 =>
          rw [Option.some_inj] at h
          subst h
          dsimp only
          obtain ⟨rb1, rb2, rb3⟩ := ch32_readback_spec env (addr % U32) 64 0
            (ch32_write_memory_word CH32_FLASH_CTLR 0 w2.t).t
          rw [rb2]
          have hM64 : ∀ i : Nat,
              (ch32_write_memory_word CH32_FLASH_CTLR 0 w2.t).t + 64 - 64 + i =
              (ch32_write_memory_word CH32_FLASH_CTLR 0 w2.t).t + i :=
            fun i => by omega
          simp only [hM64]
          constructor
          · simp only [beq_iff_eq, rb1, List.map_inj_left, List.mem_range]
            constructor
            · intro hall i hi
              exact (hall i hi).symm
            · intro hall i hi
              exact (hall i hi).symm
          · intro i hi
            apply List.mem_cons_of_mem
            apply List.mem_append_right
            simpa using rb3 i hi

def c5env : Nat → Nat := fun _ => 0

def c5out : MOut Bool :=
  (ch32_write_flash_block c5env 1 0 (fun _ => 0) 0).getD ⟨false, 0, []⟩

theorem ch32_write_flash_block_verify_iff_witness : c5out.val = true := by
  have h : ch32_write_flash_block c5env 1 0 (fun _ => 0) 0 = some c5out := rfl
  have hm := ch32_write_flash_block_verify_iff c5env 1 0 0 (fun _ => 0) c5out
    (by decide) h
  refine hm.1.mpr ?_
  intro i hi
  show (0 : Nat) % U32 = blockWord (fun _ => 0) i
  rfl

lemma filterMap_fstep_write_memory_word (address value t : Nat) :
    (ch32_write_memory_word address value t).tr.filterMap fstep = [] :=
  filterMap_fstep_eq_nil (hwOnly_write_memory_word address value t)

lemma hwOnly_pgm_words (env : Nat → Nat) (fuel a : Nat) (w : Nat → Nat) :
    ∀ n i t p, ch32_pgm_words env fuel a w n i t = some p → hwOnly p.2 := by
  intro n
  induction n with
  | zero =>
    intro i t p h
    unfold ch32_pgm_words at h
    rw [Option.some_inj] at h
    subst h
    intro e he
    simp at he
  | succ n ih =>
    intro i t p h
    unfold ch32_pgm_words at h
    dsimp only at h
    split at h
    · exact Option.noConfusion h
    · next o1 ho1 =>
      split at h
      · exact Option.noConfusion h
      · next p2 hp2 =>
        rw [Option.some_inj] at h
        subst h
        exact hwOnly_append (hwOnly_append (hwOnly_write_memory_word _ _ _)
          (hwOnly_wait_flash_write _ _ _ _ ho1)) (ih _ _ _ hp2)

lemma hwOnly_readback (env : Nat → Nat) (a : Nat) :
    ∀ n i t, hwOnly (ch32_readback env a n i t).2.2 := by
  intro n
  induction n with
  | zero =>
    intro i t e he
    simp [ch32_readback] at he
  | succ n ih =>
    intro i t
    exact hwOnly_append (hwOnly_read_memory_word _ _ _) (ih _ _)

lemma erase_steps (env : Nat → Nat) (fuel addr t : Nat) (o : MOut Bool)
    (h : ch32_erase_flash_block env fuel addr t = some o) :
    o.tr.filterMap fstep = [FStep.sEr (addr % U32)] := by
  unfold ch32_erase_flash_block at h
  dsimp only at h
  split at h
  · rw [Option.some_inj] at h
    subst h
    rfl
  · split at h
    · exact Option.noConfusion h
    · next w1 hw1 =>
      split at h
      · exact Option.noConfusion h
      · next w2 hw2 =>
        rw [Option.some_inj] at h
        subst h
        have h1 := filterMap_fstep_eq_nil (hwOnly_wait_flash _ _ _ _ hw1)
        have h2 := filterMap_fstep_eq_nil (hwOnly_wait_flash _ _ _ _ hw2)
        simp [List.filterMap_append, h1, h2, filterMap_fstep_write_memory_word, fstep]

lemma write_flash_block_steps (env : Nat → Nat) (fuel addr : Nat) (data : Nat → Nat)
    (t : Nat) (o : MOut Bool)
    (h : ch32_write_flash_block env fuel addr data t = some o) :
    o.tr.filterMap fstep = [FStep.sPg (addr % U32)] := by
  unfold ch32_write_flash_block at h
  dsimp only at h
  split at h
  · rw [Option.some_inj] at h
    subst h
    rfl
  · split at h
    · exact Option.noConfusion h
    · next w1 hw1 =>
      split at h
      · exact Option.noConfusion h
      · next p hp =>
        split at h
        · exact Option.noConfusion h
        · next w2 hw2 =>
          rw [Option.some_inj] at h
          subst h
          have h1 := filterMap_fstep_eq_nil (hwOnly_wait_flash _ _ _ _ hw1)
          have h2 := filterMap_fstep_eq_nil (hwOnly_wait_flash _ _ _ _ hw2)
          have h3 := filterMap_fstep_eq_nil (hwOnly_pgm_words _ _ _ _ _ _ _ _ hp)
          have h4 := filterMap_fstep_eq_nil (hwOnly_readback env (addr % U32) 64 0
            (ch32_write_memory_word CH32_FLASH_CTLR 0 w2.t).t)
          simp [List.filterMap_append, h1, h2, h3, h4,
            filterMap_fstep_write_memory_word, fstep]

/-- The per-chunk step sequence of a fault-free `ch32_write_flash` run
over `k` chunks starting at byte offset `i`: for each chunk a single
status-callback report `(offset, data_len)`, then entry into the block
erase, then entry into the block program, at 256-byte strides in
increasing address order. -/
def chunkSeq (a len : Nat) : Nat → Nat → List FStep
  | 0, _ => []
  | k + 1, i =>
    FStep.sCb i len :: FStep.sEr ((a + i) % U32) :: FStep.sPg ((a + i) % U32) ::
      chunkSeq a len k (i + 256)

lemma write_flash_loop_steps (env : Nat → Nat) (fuel a : Nat) (data : Nat → Nat)
    (len : Nat) :
    ∀ n i t o, ch32_write_flash_loop env fuel a data len n i t = some o →
      (o.val = true → o.tr.filterMap fstep = chunkSeq a len n i) ∧
      (o.val = false → ∃ k, k < n ∧
        (o.tr.filterMap fstep = chunkSeq a len k i ++
            [FStep.sCb (i + 256 * k) len, FStep.sEr ((a + (i + 256 * k)) % U32)] ∨
         o.tr.filterMap fstep = chunkSeq a len k i ++
            [FStep.sCb (i + 256 * k) len, FStep.sEr ((a + (i + 256 * k)) % U32),
             FStep.sPg ((a + (i + 256 * k)) % U32)])) := by
  intro n
  induction n with
  | zero =>
    intro i t o h
    unfold ch32_write_flash_loop at h
    rw [Option.some_inj] at h
    subst h
    refine ⟨fun _ => rfl, fun hv => ?_⟩
    simp at hv
  | succ n ih =>
    intro i t o h
    unfold ch32_write_flash_loop at h
    split at h
    · exact Option.noConfusion h
    · next er her =>
      split at h
      · next hev =>
        rw [Option.some_inj] at h
        subst h
        refine ⟨fun hv => by simp at hv, fun _ => ?_⟩
        refine ⟨0, by omega, Or.inl ?_⟩
        have hes := erase_steps _ _ _ _ _ her
        simp [fstep, List.filterMap_append, hes, chunkSeq]
      · next hev =>
        split at h
        · exact Option.noConfusion h
        · next pg hpg =>
          split at h
          · next hpv =>
            rw [Option.some_inj] at h
            subst h
            refine ⟨fun hv => by simp at hv, fun _ => ?_⟩
            refine ⟨0, by omega, Or.inr ?_⟩
            have hes := erase_steps _ _ _ _ _ her
            have hps := write_flash_block_steps _ _ _ _ _ _ hpg
            simp [fstep, List.filterMap_append, hes, hps, chunkSeq]
          · next hpv =>
            split at h
            · exact Option.noConfusion h
            · next rest hrest =>
              rw [Option.some_inj] at h
              subst h
              obtain ⟨ihT, ihF⟩ := ih (i + 256) pg.t rest hrest
              have hes := erase_steps _ _ _ _ _ her
              have hps := write_flash_block_steps _ _ _ _ _ _ hpg
              constructor
              · intro hv
                simp [fstep, List.filterMap_append, hes, hps, ihT hv, chunkSeq]
              · intro hv
                obtain ⟨k, hk, hcase⟩ := ihF hv
                refine ⟨k + 1, by omega, ?_⟩
                have harith1 : i + 256 + 256 * k = i + 256 * (k + 1) := by ring
                rcases hcase with hc | hc
                · left
                  rw [harith1] at hc
                  simp [fstep, List.filterMap_append, hes, hps, hc, chunkSeq]
                · right
                  rw [harith1] at hc
                  simp [fstep, List.filterMap_append, hes, hps, hc, chunkSeq]

/-- C3: `ch32_write_flash` rejects base addresses not divisible by 64
with an empty trace (no hardware access, no callback); for an aligned
base it processes 256-byte chunks in increasing address order, and per
chunk the visible flash-programming steps are exactly: one status
callback `(chunk offset, data_len)`, then entry into the block erase,
then entry into the block program; the first failing erase or program
ends the run immediately (the step sequence stops inside that chunk
and the result is `false`), while a fully successful run performs all
`ceil(len/256)` chunks and returns `true`. -/
theorem ch32_write_flash_chunk_sequence (env : Nat → Nat) (fuel addr : Nat)
    (data : Nat → Nat) (len t : Nat) :
    (addr % U32 % 64 ≠ 0 →
      ch32_write_flash env fuel addr data len t = some ⟨false, t, []⟩) ∧
    (addr % U32 % 64 = 0 → ∀ o, ch32_write_flash env fuel addr data len t = some o →
      (o.val = true →
        o.tr.filterMap fstep = chunkSeq (addr % U32) len ((len + 255) / 256) 0) ∧
      (o.val = false → ∃ k, k < (len + 255) / 256 ∧
        (o.tr.filterMap fstep = chunkSeq (addr % U32) len k 0 ++
            [FStep.sCb (256 * k) len, FStep.sEr ((addr % U32 + 256 * k) % U32)] ∨
         o.tr.filterMap fstep = chunkSeq (addr % U32) len k 0 ++
            [FStep.sCb (256 * k) len, FStep.sEr ((addr % U32 + 256 * k) % U32),
             FStep.sPg ((addr % U32 + 256 * k) % U32)]))) := by
  constructor
  · intro h
    unfold ch32_write_flash
    dsimp only
    rw [if_pos h]
  · intro h o ho
    unfold ch32_write_flash at ho
    dsimp only at ho
    rw [if_neg (fun hc => hc h)] at ho
    have hsteps := write_flash_loop_steps env fuel (addr % U32) data len
      ((len + 255) / 256) 0 t o ho
    simpa using hsteps

theorem ch32_write_flash_chunk_sequence_witness :
    ch32_write_flash (fun _ => 0) 1 1 (fun _ => 0) 512 0 = some ⟨false, 0, []⟩ ∧
    ((ch32_write_flash (fun _ => 0) 1 0 (fun _ => 0) 256 0).getD
        ⟨false, 0, []⟩).tr.filterMap fstep =
      chunkSeq (0 % U32) 256 ((256 + 255) / 256) 0 :=
  ⟨(ch32_write_flash_chunk_sequence (fun _ => 0) 1 1 (fun _ => 0) 512 0).1 (by decide),
   ((ch32_write_flash_chunk_sequence (fun _ => 0) 1 0 (fun _ => 0) 256 0).2 (by decide)
      ((ch32_write_flash (fun _ => 0) 1 0 (fun _ => 0) 256 0).getD ⟨false, 0, []⟩)
      rfl).1 rfl⟩

lemma erase_val_true (env : Nat → Nat) (fuel addr t : Nat) (o : MOut Bool)
    (h : ch32_erase_flash_block env fuel addr t = some o) (hv : o.val = true) :
    addr % U32 % 256 = 0 := by
  unfold ch32_erase_flash_block at h
  dsimp only at h
  split at h
  · rw [Option.some_inj] at h
    subst h
    simp at hv
  · next hc => exact not_not.1 hc

lemma write_memory_word_mem (address value t : Nat) :
    Ev.memWr (address % U32) (value % U32) ∈ (ch32_write_memory_word address value t).tr := by
  simp [ch32_write_memory_word]

lemma pgm_words_memWr (env : Nat → Nat) (fuel a : Nat) (w : Nat → Nat) :
    ∀ n i t p, ch32_pgm_words env fuel a w n i t = some p →
      ∀ q < n, Ev.memWr ((a + 4 * (i + q)) % U32) (w (i + q) % U32) ∈ p.2 := by
  intro n
  induction n with
  | zero =>
    intro i t p h q hq
    exact absurd hq (Nat.not_lt_zero q)
  | succ n ih =>
    intro i t p h q hq
    unfold ch32_pgm_words at h
    dsimp only at h
    split at h
    · exact Option.noConfusion h
    · next o1 ho1 =>
      split at h
      · exact Option.noConfusion h
      · next p2 hp2 =>
        rw [Option.some_inj] at h
        subst h
        cases q with
        | zero =>
          apply List.mem_append_left
          apply List.mem_append_left
          simpa using write_memory_word_mem (a + 4 * i) (w i) t
        | succ q2 =>
          apply List.mem_append_right
          have hm := ih (i + 1) o1.t p2 hp2 q2 (by omega)
          have e1 : i + 1 + q2 = i + (q2 + 1) := by omega
          rw [e1] at hm
          exact hm

lemma write_flash_block_memWr (env : Nat → Nat) (fuel addr : Nat) (data : Nat → Nat)
    (t : Nat) (o : MOut Bool) (ha : addr % U32 % 256 = 0)
    (h : ch32_write_flash_block env fuel addr data t = some o) :
    ∀ q < 64, Ev.memWr ((addr % U32 + 4 * q) % U32) (blockWord data q % U32) ∈ o.tr := by
  unfold ch32_write_flash_block at h
  dsimp only at h
  split at h
  · next hc => exact absurd ha hc
  · next hc =>
    split at h
    · exact Option.noConfusion h
    · next w1 hw1 =>
      split at h
      · exact Option.noConfusion h
      · next p hp =>
        split at h
        · exact Option.noConfusion h
        · next w2 hw2 =>
          rw [Option.some_inj] at h
          subst h
          intro q hq
          apply List.mem_cons_of_mem
          apply List.mem_append_left
          apply List.mem_append_left
          apply List.mem_append_left
          apply List.mem_append_left
          apply List.mem_append_right
          have hm := pgm_words_memWr env fuel (addr % U32) (blockWord data)
            64 0 _ _ hp q hq
          simpa using hm

lemma write_flash_loop_memWr (env : Nat → Nat) (fuel a : Nat) (data : Nat → Nat)
    (len : Nat) :
    ∀ n i t o, ch32_write_flash_loop env fuel a data len n i t = some o →
      o.val = true →
      ∀ j < n, ∀ q < 64,
        Ev.memWr ((a + i + 256 * j + 4 * q) % U32)
          (blockWord (fun y => data (i + 256 * j + y)) q % U32) ∈ o.tr := by
  intro n
  induction n with
  | zero =>
    intro i t o h hv j hj
    exact absurd hj (Nat.not_lt_zero j)
  | succ n ih =>
    intro i t o h hv j hj
    unfold ch32_write_flash_loop at h
    split at h
    · exact Option.noConfusion h
    · next er her =>
      split at h
      · next hev =>
        rw [Option.some_inj] at h
        subst h
        simp at hv
      · next hev =>
        split at h
        · exact Option.noConfusion h
        · next pg hpg =>
          split at h
          · next hpv =>
            rw [Option.some_inj] at h
            subst h
            simp at hv
          · next hpv =>
            split at h
            · exact Option.noConfusion h
            · next rest hrest =>
              rw [Option.some_inj] at h
              subst h
              have herv : er.val = true := by
                revert hev
                cases er.val <;> simp
              have ha2 : (a + i) % U32 % 256 = 0 :=
                erase_val_true _ _ _ _ _ her herv
              cases j with
              | zero =>
                intro q hq
                apply List.mem_cons_of_mem
                apply List.mem_append_left
                apply List.mem_append_right
                have hm := write_flash_block_memWr env fuel (a + i)
                  (fun y => data (i + y)) er.t pg ha2 hpg q hq
                rw [Nat.mod_add_mod] at hm
                simpa using hm
              | succ j2 =>
                intro q hq
                apply List.mem_cons_of_mem
                apply List.mem_append_right
                have hm := ih (i + 256) pg.t rest hrest hv j2 (by omega) q hq
                have e1 : a + (i + 256) + 256 * j2 + 4 * q =
                    a + i + 256 * (j2 + 1) + 4 * q := by omega
                have e2 : (fun y => data (i + 256 + 256 * j2 + y)) =
                    (fun y => data (i + 256 * (j2 + 1) + y)) := by
                  funext y
                  have e3 : i + 256 + 256 * j2 + y = i + 256 * (j2 + 1) + y := by omega
                  rw [e3]
                rw [e1, e2] at hm
                exact hm

def isErStep : FStep → Bool
  | FStep.sEr _ => true
  | _ => false

def isPgStep : FStep → Bool
  | FStep.sPg _ => true
  | _ => false

lemma chunkSeq_countP (a len : Nat) : ∀ k i,
    (chunkSeq a len k i).countP isErStep = k ∧
    (chunkSeq a len k i).countP isPgStep = k := by
  intro k
  induction k with
  | zero =>
    intro i
    exact ⟨rfl, rfl⟩
  | succ k ih =>
    intro i
    obtain ⟨ih1, ih2⟩ := ih (i + 256)
    constructor
    · simp [chunkSeq, List.countP_cons, isErStep, isPgStep, ih1]
    · simp [chunkSeq, List.countP_cons, isErStep, isPgStep, ih2]

/-- C10: for a 64-aligned base address and a fully successful run,
`ch32_write_flash` performs exactly `ceil(len / 256)` erase cycles and
the same number of program cycles, and the program of chunk `j` stages
a full 256 bytes of input — each of its 64 word writes carries the
word assembled from bytes `256*j + 4*q .. 256*j + 4*q + 3` of the
input, whether or not those offsets lie below `len`; for `len = 0` it
returns success immediately with an empty trace (no hardware access
and no status callback). -/
theorem ch32_write_flash_block_cycles (env : Nat → Nat) (fuel addr : Nat)
    (data : Nat → Nat) (len t : Nat) (h64 : addr % U32 % 64 = 0) :
    (len = 0 → ch32_write_flash env fuel addr data len t = some ⟨true, t, []⟩) ∧
    (∀ o, ch32_write_flash env fuel addr data len t = some o → o.val = true →
      ((o.tr.filterMap fstep).countP isErStep = (len + 255) / 256 ∧
       (o.tr.filterMap fstep).countP isPgStep = (len + 255) / 256) ∧
      (∀ j < (len + 255) / 256, ∀ q < 64,
        Ev.memWr ((addr % U32 + 256 * j + 4 * q) % U32)
          (blockWord (fun y => data (256 * j + y)) q % U32) ∈ o.tr)) := by
  have hcond : ¬(addr % U32 % 64 ≠ 0) := fun hc => hc h64
  constructor
  · intro hl
    subst hl
    unfold ch32_write_flash
    dsimp only
    rw [if_neg hcond]
    rfl
  · intro o ho hv
    unfold ch32_write_flash at ho
    dsimp only at ho
    rw [if_neg hcond] at ho
    constructor
    · have hsteps := (write_flash_loop_steps env fuel (addr % U32) data len
        ((len + 255) / 256) 0 t o ho).1 hv
      rw [hsteps]
      exact chunkSeq_countP (addr % U32) len ((len + 255) / 256) 0
    · intro j hj q hq
      have hm := write_flash_loop_memWr env fuel (addr % U32) data len
        ((len + 255) / 256) 0 t o ho hv j hj q hq
      simpa using hm

theorem ch32_write_flash_block_cycles_witness :
    ch32_write_flash (fun _ => 0) 1 0 (fun _ => 0) 0 0 = some ⟨true, 0, []⟩ ∧
    (((ch32_write_flash (fun _ => 0) 1 0 (fun _ => 0) 256 0).getD
        ⟨false, 0, []⟩).tr.filterMap fstep).countP isErStep = (256 + 255) / 256 :=
  ⟨(ch32_write_flash_block_cycles (fun _ => 0) 1 0 (fun _ => 0) 0 0 (by decide)).1 rfl,
   (((ch32_write_flash_block_cycles (fun _ => 0) 1 0 (fun _ => 0) 256 0 (by decide)).2
      ((ch32_write_flash (fun _ => 0) 1 0 (fun _ => 0) 256 0).getD ⟨false, 0, []⟩)
      rfl rfl).1).1⟩

/-- A trace without `ch32_program` step markers. -/
def markerFree (tr : List Ev) : Prop := ∀ e ∈ tr, isMarker e = false

lemma markerFree_of_hwOnly {tr : List Ev} (h : hwOnly tr) : markerFree tr :=
  fun e he => isMarker_eq_false_of_hw (h e he)

lemma markerFree_append {a b : List Ev} (ha : markerFree a) (hb : markerFree b) :
    markerFree (a ++ b) :=
  fun e he => (List.mem_append.1 he).elim (ha e) (hb e)

lemma markerFree_erase (env : Nat → Nat) (fuel addr t : Nat) (o : MOut Bool)
    (h : ch32_erase_flash_block env fuel addr t = some o) : markerFree o.tr := by
  unfold ch32_erase_flash_block at h
  dsimp only at h
  split at h
  · rw [Option.some_inj] at h
    subst h
    intro e he
    simp only [List.mem_cons, List.not_mem_nil, or_false] at he
    subst he
    rfl
  · split at h
    · exact Option.noConfusion h
    · next w1 hw1 =>
      split at h
      · exact Option.noConfusion h
      · next w2 hw2 =>
        rw [Option.some_inj] at h
        subst h
        intro e he
        simp only [List.mem_cons] at he
        rcases he with rfl | he
        · rfl
        · refine markerFree_of_hwOnly ?_ e he
          exact hwOnly_append (hwOnly_append (hwOnly_append (hwOnly_append
            (hwOnly_append (hwOnly_wait_flash _ _ _ _ hw1)
              (hwOnly_write_memory_word _ _ _)) (hwOnly_write_memory_word _ _ _))
            (hwOnly_write_memory_word _ _ _)) (hwOnly_wait_flash _ _ _ _ hw2))
            (hwOnly_write_memory_word _ _ _)

lemma markerFree_write_flash_block (env : Nat → Nat) (fuel addr : Nat)
    (data : Nat → Nat) (t : Nat) (o : MOut Bool)
    (h : ch32_write_flash_block env fuel addr data t = some o) : markerFree o.tr := by
  unfold ch32_write_flash_block at h
  dsimp only at h
  split at h
  · rw [Option.some_inj] at h
    subst h
    intro e he
    simp only [List.mem_cons, List.not_mem_nil, or_false] at he
    subst he
    rfl
  · split at h
    · exact Option.noConfusion h
    · next w1 hw1 =>
      split at h
      · exact Option.noConfusion h
      · next p hp =>
        split at h
        · exact Option.noConfusion h
        · next w2 hw2 =>
          rw [Option.some_inj] at h
          subst h
          intro e he
          simp only [List.mem_cons] at he
          rcases he with rfl | he
          · rfl
          · refine markerFree_of_hwOnly ?_ e he
            exact hwOnly_append (hwOnly_append (hwOnly_append (hwOnly_append
              (hwOnly_append (hwOnly_append (hwOnly_append
                (hwOnly_wait_flash _ _ _ _ hw1) (hwOnly_write_memory_word _ _ _))
                (hwOnly_write_memory_word _ _ _)) (hwOnly_pgm_words _ _ _ _ _ _ _ _ hp))
                (hwOnly_write_memory_word _ _ _)) (hwOnly_wait_flash _ _ _ _ hw2))
                (hwOnly_write_memory_word _ _ _)) (hwOnly_readback _ _ _ _ _)

lemma markerFree_write_flash_loop (env : Nat → Nat) (fuel a : Nat)
    (data : Nat → Nat) (len : Nat) :
    ∀ n i t o, ch32_write_flash_loop env fuel a data len n i t = some o →
      markerFree o.tr := by
  intro n
  induction n with
  | zero =>
    intro i t o h
    unfold ch32_write_flash_loop at h
    rw [Option.some_inj] at h
    subst h
    intro e he
    simp at he
  | succ n ih =>
    intro i t o h
    unfold ch32_write_flash_loop at h
    split at h
    · exact Option.noConfusion h
    · next er her =>
      split at h
      · rw [Option.some_inj] at h
        subst h
        intro e he
        simp only [List.mem_cons] at he
        rcases he with rfl | he
        · rfl
        · exact markerFree_erase _ _ _ _ _ her e he
      · split at h
        · exact Option.noConfusion h
        · next pg hpg =>
          split at h
          · rw [Option.some_inj] at h
            subst h
            intro e he
            simp only [List.mem_cons] at he
            rcases he with rfl | he
            · rfl
            · exact markerFree_append (markerFree_erase _ _ _ _ _ her)
                (markerFree_write_flash_block _ _ _ _ _ _ hpg) e he
          · split at h
            · exact Option.noConfusion h
            · next rest hrest =>
              rw [Option.some_inj] at h
              subst h
              intro e he
              simp only [List.mem_cons] at he
              rcases he with rfl | he
              · rfl
              · exact markerFree_append (markerFree_append
                  (markerFree_erase _ _ _ _ _ her)
                  (markerFree_write_flash_block _ _ _ _ _ _ hpg))
                  (ih _ _ _ hrest) e he

lemma markerFree_write_flash (env : Nat → Nat) (fuel addr : Nat)
    (data : Nat → Nat) (len t : Nat) (o : MOut Bool)
    (h : ch32_write_flash env fuel addr data len t = some o) : markerFree o.tr := by
  unfold ch32_write_flash at h
  dsimp only at h
  split at h
  · rw [Option.some_inj] at h
    subst h
    intro e he
    simp at he
  · exact markerFree_write_flash_loop _ _ _ _ _ _ _ _ _ h

lemma not_mem_of_markerFree {tr : List Ev} (h : markerFree tr) {e : Ev}
    (he : isMarker e = true) : e ∉ tr := by
  intro hm
  rw [h e hm] at he
  exact Bool.noConfusion he

/-- C8: the `ch32_program` orchestration performs transport init,
transport reset, halt, unlock, `ch32_write_flash` at base 0x08000000
and reset-and-run in exactly that order (the step markers of its trace
are always a prefix of the full six-step sequence), a step is entered
if and only if every earlier step succeeded, and the C function
returns `void` — the model value is `Unit` — so the outcome is
observable only through the trace (log/status side channel). -/
theorem ch32_program_step_order (env : RvswdEnv) (fuel : Nat) (firmware : Nat → Nat)
    (len t : Nat) (o : MOut Unit)
    (h : ch32_program env fuel firmware len t = some o) :
    o.tr.filter isMarker =
      [Ev.mInit, Ev.mReset, Ev.mHalt, Ev.mUnlock, Ev.mWriteFlash 0x08000000,
       Ev.mRun].take (o.tr.filter isMarker).length ∧
    Ev.mInit ∈ o.tr ∧
    (Ev.mReset ∈ o.tr ↔ env.initRes = rvswd_result_t.RVSWD_OK) ∧
    (Ev.mHalt ∈ o.tr ↔
      env.initRes = rvswd_result_t.RVSWD_OK ∧
      env.resetRes = rvswd_result_t.RVSWD_OK) ∧
    (Ev.mUnlock ∈ o.tr ↔
      env.initRes = rvswd_result_t.RVSWD_OK ∧
      env.resetRes = rvswd_result_t.RVSWD_OK ∧
      (ch32_halt_microprocessor env.read t).val = rvswd_result_t.RVSWD_OK) ∧
    (Ev.mWriteFlash 0x08000000 ∈ o.tr ↔
      env.initRes = rvswd_result_t.RVSWD_OK ∧
      env.resetRes = rvswd_result_t.RVSWD_OK ∧
      (ch32_halt_microprocessor env.read t).val = rvswd_result_t.RVSWD_OK ∧
      (ch32_unlock_flash env.read (ch32_halt_microprocessor env.read t).t).val = true) ∧
    (Ev.mRun ∈ o.tr ↔
      env.initRes = rvswd_result_t.RVSWD_OK ∧
      env.resetRes = rvswd_result_t.RVSWD_OK ∧
      (ch32_halt_microprocessor env.read t).val = rvswd_result_t.RVSWD_OK ∧
      (ch32_unlock_flash env.read (ch32_halt_microprocessor env.read t).t).val = true ∧
      Option.map MOut.val (ch32_write_flash env.read fuel 0x08000000 firmware len
        (ch32_unlock_flash env.read (ch32_halt_microprocessor env.read t).t).t) =
        some true) := by
  unfold ch32_program at h
  dsimp only at h
  split at h
  · next hc1 =>
    rw [Option.some_inj] at h
    subst h
    refine ⟨rfl, by simp, ?_, ?_, ?_, ?_, ?_⟩ <;> simp [hc1]
  · next hc1 =>
    have h1 : env.initRes = rvswd_result_t.RVSWD_OK := not_not.1 hc1
    split at h
    · next hc2 =>
      rw [Option.some_inj] at h
      subst h
      refine ⟨rfl, by simp, by simp [h1], ?_, ?_, ?_, ?_⟩ <;> simp [hc2]
    · next hc2 =>
      have h2 : env.resetRes = rvswd_result_t.RVSWD_OK := not_not.1 hc2
      have nmH : ∀ e : Ev, isMarker e = true →
          e ∉ (ch32_halt_microprocessor env.read t).tr := fun e he =>
        not_mem_of_markerFree (markerFree_of_hwOnly (hwOnly_halt env.read t)) he
      have hfH : (ch32_halt_microprocessor env.read t).tr.filter isMarker = [] :=
        filter_isMarker_eq_nil (markerFree_of_hwOnly (hwOnly_halt env.read t))
      split at h
      · next hc3 =>
        rw [Option.some_inj] at h
        subst h
        refine ⟨?_, ?_, ?_, ?_, ?_, ?_, ?_⟩
        · simp only [List.filter_cons, List.filter_append, MOut.tr, isMarker, hfH]
          rfl
        · simp
        · simp [h1]
        · simp [h1, h2]
        · simp [List.mem_cons, nmH Ev.mUnlock rfl, hc3]
        · simp [List.mem_cons, nmH (Ev.mWriteFlash 0x08000000) rfl, hc3]
        · simp [List.mem_cons, nmH Ev.mRun rfl, hc3]
      · next hc3 =>
        have h3 : (ch32_halt_microprocessor env.read t).val = rvswd_result_t.RVSWD_OK :=
          not_not.1 hc3
        have nmU : ∀ e : Ev, isMarker e = true →
            e ∉ (ch32_unlock_flash env.read
              (ch32_halt_microprocessor env.read t).t).tr := fun e he =>
          not_mem_of_markerFree (markerFree_of_hwOnly (hwOnly_unlock_flash _ _)) he
        have hfU : (ch32_unlock_flash env.read
            (ch32_halt_microprocessor env.read t).t).tr.filter isMarker = [] :=
          filter_isMarker_eq_nil (markerFree_of_hwOnly (hwOnly_unlock_flash _ _))
        split at h
        · next hc4 =>
          rw [Option.some_inj] at h
          subst h
          refine ⟨?_, ?_, ?_, ?_, ?_, ?_, ?_⟩
          · simp only [List.filter_cons, List.filter_append, MOut.tr, isMarker, hfH, hfU]
            rfl
          · simp
          · simp [h1]
          · simp [h1, h2]
          · simp [List.mem_cons, List.mem_append, nmH Ev.mUnlock rfl,
              nmU Ev.mUnlock rfl, h1, h2, h3]
          · simp [List.mem_cons, List.mem_append, nmH (Ev.mWriteFlash 0x08000000) rfl,
              nmU (Ev.mWriteFlash 0x08000000) rfl, hc4]
          · simp [List.mem_cons, List.mem_append, nmH Ev.mRun rfl,
              nmU Ev.mRun rfl, hc4]
        · next hc4 =>
          have h4 : (ch32_unlock_flash env.read
              (ch32_halt_microprocessor env.read t).t).val = true := by
            simpa using hc4
          split at h
          · exact Option.noConfusion h
          · next w hw =>
            have nmW : ∀ e : Ev, isMarker e = true → e ∉ w.tr := fun e he =>
              not_mem_of_markerFree
                (markerFree_write_flash _ _ _ _ _ _ _ hw) he
            have hfW : w.tr.filter isMarker = [] :=
              filter_isMarker_eq_nil (markerFree_write_flash _ _ _ _ _ _ _ hw)
            split at h
            · next hc5 =>
              rw [Option.some_inj] at h
              subst h
              refine ⟨?_, ?_, ?_, ?_, ?_, ?_, ?_⟩
              · simp only [List.filter_cons, List.filter_append, MOut.tr, isMarker,
                  hfH, hfU, hfW]
                rfl
              · simp
              · simp [h1]
              · simp [h1, h2]
              · simp [List.mem_cons, List.mem_append, nmH Ev.mUnlock rfl,
                  nmU Ev.mUnlock rfl, nmW Ev.mUnlock rfl, h1, h2, h3]
              · simp [List.mem_cons, List.mem_append,
                  nmH (Ev.mWriteFlash 0x08000000) rfl,
                  nmU (Ev.mWriteFlash 0x08000000) rfl,
                  nmW (Ev.mWriteFlash 0x08000000) rfl, h1, h2, h3, h4]
              · simp [List.mem_cons, List.mem_append, nmH Ev.mRun rfl,
                  nmU Ev.mRun rfl, nmW Ev.mRun rfl, hw, hc5]
            · next hc5 =>
              have h5 : w.val = true := by simpa using hc5
              rw [Option.some_inj] at h
              subst h
              have nmR : ∀ e : Ev, isMarker e = true →
                  e ∉ (ch32_reset_microprocessor_and_run env.read w.t).tr :=
                fun e he => not_mem_of_markerFree
                  (markerFree_of_hwOnly (hwOnly_reset_and_run _ _)) he
              have hfR : (ch32_reset_microprocessor_and_run
                  env.read w.t).tr.filter isMarker = [] :=
                filter_isMarker_eq_nil
                  (markerFree_of_hwOnly (hwOnly_reset_and_run _ _))
              refine ⟨?_, ?_, ?_, ?_, ?_, ?_, ?_⟩
              · simp only [List.filter_cons, List.filter_append, MOut.tr, isMarker,
                  hfH, hfU, hfW, hfR]
                rfl
              · simp
              · simp [h1]
              · simp [h1, h2]
              · simp [List.mem_cons, List.mem_append, nmH Ev.mUnlock rfl,
                  nmU Ev.mUnlock rfl, nmW Ev.mUnlock rfl, nmR Ev.mUnlock rfl,
                  h1, h2, h3]
              · simp [List.mem_cons, List.mem_append,
                  nmH (Ev.mWriteFlash 0x08000000) rfl,
                  nmU (Ev.mWriteFlash 0x08000000) rfl,
                  nmW (Ev.mWriteFlash 0x08000000) rfl,
                  nmR (Ev.mWriteFlash 0x08000000) rfl, h1, h2, h3, h4]
              · simp [List.mem_cons, List.mem_append, nmH Ev.mRun rfl,
                  nmU Ev.mRun rfl, nmW Ev.mRun rfl, nmR Ev.mRun rfl,
                  h1, h2, h3, h4, h5, hw]

def c8env : RvswdEnv :=
  ⟨fun _ => 0xC0300, rvswd_result_t.RVSWD_OK, rvswd_result_t.RVSWD_OK⟩

def c8out : MOut Unit := (ch32_program c8env 1 (fun _ => 0) 0 0).getD ⟨(), 0, []⟩

theorem ch32_program_step_order_witness : Ev.mRun ∈ c8out.tr := by
  have h : ch32_program c8env 1 (fun _ => 0) 0 0 = some c8out := rfl
  have hm := ch32_program_step_order c8env 1 (fun _ => 0) 0 0 c8out h
  exact (hm.2.2.2.2.2.2).mpr ⟨rfl, rfl, by decide, by decide, by decide⟩
